import Mathlib

/-!
# Helix shell core: a shallow embedding in Lean 4

This file embeds the command-execution core of the Helix shell
(tokenizer, parser, variable expander, executable resolver, child-side
file-descriptor setup, pipeline wait loop, built-in handlers, job
manager) as executable Lean definitions translated from the C++
sources, and proves or refutes the specification claims about them.

Text is represented as `List Char` (written `Str` below) so that every
definition evaluates by kernel reduction.  Operating-system calls are
modelled explicitly where a component performs them: `chdir` succeeds
exactly on the directories of a file-system predicate, `waitpid`
outcomes are an input list, and `open` returns a caller-supplied fresh
descriptor (the kernel's choice is a parameter, constrained by
freshness hypotheses).
-/

namespace Helix

/-- Character lists stand in for `std::string`. -/
abbrev Str := List Char

/-- Token kinds, from `include/types.h` (`enum class TokenType`). -/
inductive TokenType
  | WORD
  | PIPE
  | REDIRECT_IN
  | REDIRECT_OUT
  | REDIRECT_OUT_APPEND
  | REDIRECT_ERR
  | REDIRECT_ERR_APPEND
  | BACKGROUND
  | SEMICOLON
  | END_OF_INPUT
  deriving DecidableEq, Repr

/-- A token, from `include/types.h` (`struct Token`). -/
structure Token where
  type : TokenType
  value : Str
  deriving DecidableEq, Repr

/-- Tokenizer states, from `include/tokenizer.h` (`enum class TokenizerState`). -/
inductive TokenizerState
  | NORMAL
  | IN_DOUBLE_QUOTE
  | IN_SINGLE_QUOTE
  deriving DecidableEq, Repr

/-- `std::isspace` on the characters the shell can read. -/
def isCppSpace (c : Char) : Bool :=
  c = ' ' || c = '\t' || c = '\n' || c = '\r' ||
  c = Char.ofNat 11 || c = Char.ofNat 12

/-- Flushing the accumulator: a non-empty accumulator becomes a `WORD`
token (`tokenizer.cpp`, the `if (!current.empty())` pushes). -/
def flushCurrent (current : Str) : List Token :=
  if current = [] then [] else [⟨TokenType.WORD, current⟩]

/-- `Tokenizer::handleSpecialTokens` (`src/tokenizer.cpp`): the token
pushed when the function returns `true`, `none` when it returns
`false`.  The two-character window is `input.substr(i, 2)`; the
comparison of that window with the three-character literal `"2>>"` is
kept exactly as in the source (it can never succeed, because a
two-element list never equals a three-element list). -/
def handleSpecialTokens (input : Str) (i : Nat) : Option Token :=
  let multi : Option Token :=
    if i + 1 < input.length then
      let two := (input.drop i).take 2
      if two = ['>', '>'] then some ⟨TokenType.REDIRECT_OUT_APPEND, ['>', '>']⟩
      else if two = ['2', '>'] then some ⟨TokenType.REDIRECT_ERR, ['2', '>']⟩
      else if two = ['2', '>', '>'] then
        some ⟨TokenType.REDIRECT_ERR_APPEND, ['2', '>', '>']⟩
      else none
    else none
  match multi with
  | some t => some t
  | none =>
    match input.getD i ' ' with
    | '|' => some ⟨TokenType.PIPE, ['|']⟩
    | '<' => some ⟨TokenType.REDIRECT_IN, ['<']⟩
    | '>' => some ⟨TokenType.REDIRECT_OUT, ['>']⟩
    | '&' => some ⟨TokenType.BACKGROUND, ['&']⟩
    | ';' => some ⟨TokenType.SEMICOLON, [';']⟩
    | _ => none

/-- `Tokenizer::getTokenLength` (`src/tokenizer.cpp`).  For `c = '2'`
the three-character window `input.substr(i, 3)` is compared against
`"2>>"` and then against the two-character literal `"2>"` (which can
never succeed), and the fall-through returns `0`. -/
def getTokenLength (input : Str) (i : Nat) : Nat :=
  let c := input.getD i ' '
  if c = '2' then
    if i + 2 < input.length then
      let three := (input.drop i).take 3
      if three = ['2', '>', '>'] then 3
      else if three = ['2', '>'] then 2
      else 0
    else 0
  else
    if i + 1 < input.length then
      if (input.drop i).take 2 = ['>', '>'] then 2 else 1
    else 1

/-- One step of `Tokenizer::processNormalState`: returns the number of
characters consumed, the tokens pushed, the new accumulator and the new
state.  Mirrors the C++ exactly, including that `handleSpecialTokens`
flushes the accumulator even when it returns `false` (so a bare `2`
splits the surrounding word). -/
def processNormalState (input : Str) (i : Nat) (current : Str) :
    Nat × List Token × Str × TokenizerState :=
  let c := input.getD i ' '
  if isCppSpace c then
    (1, flushCurrent current, [], TokenizerState.NORMAL)
  else if c = '"' then
    (1, flushCurrent current, [], TokenizerState.IN_DOUBLE_QUOTE)
  else if c = '\'' then
    (1, flushCurrent current, [], TokenizerState.IN_SINGLE_QUOTE)
  else if c = '\\' then
    if i + 1 < input.length then
      (2, [], current ++ [input.getD (i + 1) ' '], TokenizerState.NORMAL)
    else
      (1, [], current, TokenizerState.NORMAL)
  else if c = '|' ∨ c = '<' ∨ c = '>' ∨ c = '&' ∨ c = ';' ∨ c = '2' ∨
          (c = '2' ∧ i + 1 < input.length ∧ input.getD (i + 1) ' ' = '>') then
    match handleSpecialTokens input i with
    | some t => (getTokenLength input i, flushCurrent current ++ [t], [],
                 TokenizerState.NORMAL)
    | none => (1, flushCurrent current, [c], TokenizerState.NORMAL)
  else
    (1, [], current ++ [c], TokenizerState.NORMAL)

/-- One step of `Tokenizer::processDoubleQuoteState`. -/
def processDoubleQuoteState (input : Str) (i : Nat) (current : Str) :
    Nat × Str × TokenizerState :=
  let c := input.getD i ' '
  if c = '"' then
    (1, current, TokenizerState.NORMAL)
  else if c = '\\' ∧ i + 1 < input.length then
    let next := input.getD (i + 1) ' '
    if next = '"' ∨ next = '\\' ∨ next = '$' then
      (2, current ++ [next], TokenizerState.IN_DOUBLE_QUOTE)
    else
      (1, current ++ [c], TokenizerState.IN_DOUBLE_QUOTE)
  else
    (1, current ++ [c], TokenizerState.IN_DOUBLE_QUOTE)

/-- One step of `Tokenizer::processSingleQuoteState`. -/
def processSingleQuoteState (input : Str) (i : Nat) (current : Str) :
    Nat × Str × TokenizerState :=
  if input.getD i ' ' = '\'' then
    (1, current, TokenizerState.NORMAL)
  else
    (1, current ++ [input.getD i ' '], TokenizerState.IN_SINGLE_QUOTE)

/-- The `while (i < input.length())` loop of `Tokenizer::tokenize`,
with explicit fuel: each loop iteration spends one unit, and `none`
means the fuel ran out before the loop finished.  (In the source the
loop has no other exit, so an execution that returns is modelled by a
`some` result at sufficiently large fuel, and an infinite loop by
`none` at every fuel.) -/
def tokenizeGo (input : Str) : Nat → Nat → TokenizerState → Str →
    List Token → Option (List Token)
  | fuel, i, state, current, acc =>
    if i < input.length then
      match fuel with
      | 0 => none
      | fuel + 1 =>
        match state with
        | TokenizerState.NORMAL =>
          let r := processNormalState input i current
          tokenizeGo input fuel (i + r.1) r.2.2.2 r.2.2.1 (acc ++ r.2.1)
        | TokenizerState.IN_DOUBLE_QUOTE =>
          let r := processDoubleQuoteState input i current
          tokenizeGo input fuel (i + r.1) r.2.2 r.2.1 acc
        | TokenizerState.IN_SINGLE_QUOTE =>
          let r := processSingleQuoteState input i current
          tokenizeGo input fuel (i + r.1) r.2.2 r.2.1 acc
    else
      some (acc ++ flushCurrent current ++ [⟨TokenType.END_OF_INPUT, []⟩])

/-- `Tokenizer::tokenize` with the given fuel for the scanning loop. -/
def tokenize (fuel : Nat) (input : Str) : Option (List Token) :=
  tokenizeGo input fuel 0 TokenizerState.NORMAL [] []

/-! ## Parser (`Parser::parse`, unnamed part_002) -/

/-- One pipeline stage, from `include/types.h` (`struct Command`).
Empty string means the redirection is unset, as in the C++
(`cmd.input_file.empty()`). -/
structure Command where
  args : List Str := []
  input_file : Str := []
  output_file : Str := []
  append_mode : Bool := false
  error_file : Str := []
  error_append_mode : Bool := false
  deriving DecidableEq, Repr

/-- `struct CommandPipeline`, `include/types.h`. -/
structure CommandPipeline where
  commands : List Command := []
  deriving DecidableEq, Repr

/-- `struct ParsedCommand`, `include/types.h`. -/
structure ParsedCommand where
  pipeline : CommandPipeline := {}
  background : Bool := false
  deriving DecidableEq, Repr

/-- `Parser::parseArguments`: consume leading `WORD` tokens into
`cmd.args`; stop at any other token.  The C++ advances an index `pos`
into the token vector; here the suffix of the vector from `pos` is
passed directly, and the remaining suffix is returned. -/
def parseArguments : List Token → Command → List Token × Command
  | [], cmd => ([], cmd)
  | t :: rest, cmd =>
    match t.type with
    | TokenType.WORD =>
      parseArguments rest { cmd with args := cmd.args ++ [t.value] }
    | _ => (t :: rest, cmd)

/-- A redirection operator not followed by a `WORD` makes
`Parser::parseRedirections` print this diagnostic and stop. -/
def redirErrMsg (op : String) : String :=
  "Parse error: expected filename after " ++ op

/-- `Parser::parseRedirections`: consume redirection-operator/filename
pairs, recording each into the command's fields (a later redirection of
the same stream silently overwrites the earlier).  Diagnostics printed
to `stderr` are returned alongside.  Suffix-passing as in
`parseArguments`. -/
def parseRedirections : List Token → Command → List String →
    List Token × Command × List String
  | [], cmd, errs => ([], cmd, errs)
  | t :: rest, cmd, errs =>
    match t.type with
    | TokenType.REDIRECT_IN =>
      match rest with
      | t2 :: rest2 =>
        if t2.type = TokenType.WORD then
          parseRedirections rest2 { cmd with input_file := t2.value } errs
        else (rest, cmd, errs ++ [redirErrMsg "<"])
      | [] => (rest, cmd, errs ++ [redirErrMsg "<"])
    | TokenType.REDIRECT_OUT =>
      match rest with
      | t2 :: rest2 =>
        if t2.type = TokenType.WORD then
          parseRedirections rest2
            { cmd with output_file := t2.value, append_mode := false } errs
        else (rest, cmd, errs ++ [redirErrMsg ">"])
      | [] => (rest, cmd, errs ++ [redirErrMsg ">"])
    | TokenType.REDIRECT_OUT_APPEND =>
      match rest with
      | t2 :: rest2 =>
        if t2.type = TokenType.WORD then
          parseRedirections rest2
            { cmd with output_file := t2.value, append_mode := true } errs
        else (rest, cmd, errs ++ [redirErrMsg ">>"])
      | [] => (rest, cmd, errs ++ [redirErrMsg ">>"])
    | TokenType.REDIRECT_ERR =>
      match rest with
      | t2 :: rest2 =>
        if t2.type = TokenType.WORD then
          parseRedirections rest2
            { cmd with error_file := t2.value, error_append_mode := false } errs
        else (rest, cmd, errs ++ [redirErrMsg "2>"])
      | [] => (rest, cmd, errs ++ [redirErrMsg "2>"])
    | TokenType.REDIRECT_ERR_APPEND =>
      match rest with
      | t2 :: rest2 =>
        if t2.type = TokenType.WORD then
          parseRedirections rest2
            { cmd with error_file := t2.value, error_append_mode := true } errs
        else (rest, cmd, errs ++ [redirErrMsg "2>>"])
      | [] => (rest, cmd, errs ++ [redirErrMsg "2>>"])
    | _ => (t :: rest, cmd, errs)

/-- `Parser::parseSingleCommand`: arguments then redirections. -/
def parseSingleCommand (tokens : List Token) : List Token × Command × List String :=
  let a := parseArguments tokens {}
  parseRedirections a.1 a.2 []

/-- The `while` loop of `Parser::parse` over pipeline stages.  The
stage just parsed is pushed unconditionally — also when it contains no
`WORD` at all; a following `PIPE` token continues the loop.  Fuel
bounds the number of stages; `tokens.length + 1` always suffices
because each iteration that recurses consumes the `PIPE` token. -/
def parseLoop (fuel : Nat) (tokens : List Token) (cmds : List Command)
    (errs : List String) : List Token × List Command × List String :=
  match fuel with
  | 0 => (tokens, cmds, errs)
  | fuel + 1 =>
    match tokens with
    | [] => (tokens, cmds, errs)
    | t :: _ =>
      if t.type = TokenType.END_OF_INPUT then (tokens, cmds, errs)
      else
        let r := parseSingleCommand tokens
        let cmds := cmds ++ [r.2.1]
        let errs := errs ++ r.2.2
        match r.1 with
        | t2 :: rest2 =>
          if t2.type = TokenType.PIPE then parseLoop fuel rest2 cmds errs
          else (r.1, cmds, errs)
        | [] => (r.1, cmds, errs)

/-- `Parser::parse` (unnamed part_002): builds the pipeline, then reads
an optional trailing `BACKGROUND` token, then checks for the end
marker.  Returns the `ParsedCommand` together with the diagnostics
printed to `stderr` (the source signals parse errors only by
printing — `parse` always returns a result). -/
def parse (tokens : List Token) : ParsedCommand × List String :=
  let r := parseLoop (tokens.length + 1) tokens [] []
  let rest := r.1
  let cmds := r.2.1
  let errs := r.2.2
  let (rest, background) :=
    match rest with
    | t :: rest2 =>
      if t.type = TokenType.BACKGROUND then (rest2, true) else (t :: rest2, false)
    | [] => ([], false)
  let errs :=
    match rest with
    | t :: _ =>
      if t.type = TokenType.END_OF_INPUT then errs
      else errs ++ ["Parse error: unexpected tokens at end of command"]
    | [] => errs ++ ["Parse error: unexpected tokens at end of command"]
  (⟨⟨cmds⟩, background⟩, errs)

/-! ## Variable expander (`EnvironmentVariableExpander::expand`,
`src/executor/environment_expander.cpp`)

The C++ repeatedly runs `std::regex_search` with the pattern
`\$\{([^}]+)\}|\$([A-Za-z_][A-Za-z0-9_]*)` over the *input*, and for
each match replaces the first occurrence of the matched text in the
*result* string with the variable's value.  The regex search is
embedded as a scanner: at each position, the `${NAME}` alternative is
tried first, then `$NAME`; the leftmost matching position wins. -/

/-- The environment: `getenv` returns `none` for an unset name. -/
def getenvS (env : List (Str × Str)) (k : Str) : Option Str :=
  (env.find? (fun p => p.1 = k)).map (fun p => p.2)

/-- `EnvironmentVariableExpander::getVariableValue`: unset names give
the empty string. -/
def getVariableValue (env : List (Str × Str)) (k : Str) : Str :=
  (getenvS env k).getD []

/-- First character class of `[A-Za-z_]`. -/
def isNameStart (c : Char) : Bool := c.isAlpha || c = '_'

/-- Continuation class `[A-Za-z0-9_]`. -/
def isNameChar (c : Char) : Bool := c.isAlphanum || c = '_'

/-- Content of `${...}`: the characters before the first `}`, or
`none` when no `}` follows (the `[^}]+\}` tail of the first regex
alternative fails). -/
def takeToBrace : Str → Option (Str × Str)
  | [] => none
  | c :: rest =>
    if c = '}' then some ([], rest)
    else (takeToBrace rest).map (fun p => (c :: p.1, p.2))

/-- Try to match one regex alternative at the head of the string;
returns `(matched text, variable name, remaining suffix)`. -/
def matchVarAt : Str → Option (Str × Str × Str)
  | '$' :: '{' :: rest =>
    match takeToBrace rest with
    | some (content, suffix) =>
      if content = [] then none
      else some ('$' :: '{' :: content ++ ['}'], content, suffix)
    | none => none
  | '$' :: c :: rest =>
    if isNameStart c then
      let name := c :: rest.takeWhile isNameChar
      some ('$' :: name, name, rest.dropWhile isNameChar)
    else none
  | _ => none

/-- `std::regex_search`: leftmost match of the variable pattern,
returned as `(text before the match, matched text, name, suffix)`. -/
def findVar : Str → Option (Str × Str × Str × Str)
  | [] => none
  | c :: rest =>
    match matchVarAt (c :: rest) with
    | some (m, nm, suf) => some ([], m, nm, suf)
    | none => (findVar rest).map (fun r => (c :: r.1, r.2.1, r.2.2.1, r.2.2.2))

/-- `result.replace(result.find(pat), ...)`: replace the first
occurrence of `pat` (leave the string unchanged when absent, matching
the `pos != npos` guard). -/
def replaceFirst (pat repl : Str) : Str → Str
  | [] => []
  | c :: rest =>
    if pat.isPrefixOf (c :: rest) then repl ++ (c :: rest).drop pat.length
    else c :: replaceFirst pat repl rest

/-- The `while (std::regex_search(...))` loop of `expand`: searches the
remaining input, replaces in the result.  Each iteration consumes the
nonempty match from the search string, so fuel `search.length + 1`
always suffices. -/
def expandGo (env : List (Str × Str)) : Nat → Str → Str → Str
  | 0, _, result => result
  | fuel + 1, search, result =>
    match findVar search with
    | none => result
    | some (_, m, name, suffix) =>
      expandGo env fuel suffix (replaceFirst m (getVariableValue env name) result)

/-- `EnvironmentVariableExpander::expand`. -/
def expand (env : List (Str × Str)) (input : Str) : Str :=
  expandGo env (input.length + 1) input input

/-! ## Executable resolver (`ExecutableResolver`,
`src/executor/fd_manager.cpp` translation unit)

`stat` is modelled by a map from path to file metadata; `none` means
`stat` fails. -/

/-- What `ExecutableResolver::isExecutable` reads from `struct stat`:
`S_ISREG` and the `S_IXUSR` bit. -/
structure FileMeta where
  regular : Bool
  xusr : Bool
  deriving DecidableEq, Repr

/-- The file system as seen through `stat`. -/
def FileSys := Str → Option FileMeta

/-- `ExecutableResolver::isExecutable`: exists, regular, owner-executable. -/
def isExecutableF (fs : FileSys) (path : Str) : Bool :=
  match fs path with
  | some m => m.regular && m.xusr
  | none => false

/-- The colon-splitting loop of `ExecutableResolver::searchInPath`:
segments between colons are kept (also empty ones), but a segment after
the final colon is kept only when nonempty (`if (start <
path_str.length())`). -/
def splitPath : Str → Str → List Str
  | [], acc => if acc = [] then [] else [acc]
  | c :: rest, acc =>
    if c = ':' then acc :: splitPath rest []
    else splitPath rest (acc ++ [c])

/-- `ExecutableResolver::searchInPath`: first `PATH` directory whose
`dir + "/" + command` is executable; `none` when `PATH` is unset. -/
def searchInPath (fs : FileSys) (pathVar : Option Str) (command : Str) :
    Option Str :=
  match pathVar with
  | none => none
  | some p =>
    ((splitPath p []).find?
        (fun dir => isExecutableF fs (dir ++ ['/'] ++ command))).map
      (fun dir => dir ++ ['/'] ++ command)

/-- `ExecutableResolver::findExecutable`: a name containing `/` is
validated directly; otherwise `PATH` is searched.  `none` is the empty
string the C++ returns on failure. -/
def findExecutable (fs : FileSys) (pathVar : Option Str) (command : Str) :
    Option Str :=
  if '/' ∈ command then
    if isExecutableF fs command then some command else none
  else searchInPath fs pathVar command

/-! ## Child exit codes (`Executor::executeCommandInChild`,
unnamed part_006) -/

/-- Exit behaviour of one child on its way to `exec`, as decided by
`Executor` (the fork child in `executeSingleCommand` or a pipeline
child): a failed `setupRedirections` exits `1`; an unresolvable command
name prints `Command not found` and exits `127`; a failing `execvp`
prints `Exec failed` and exits `1`.  `none` means `exec` replaced the
child.  `redirOk` and `execOk` stand for the success of the `open`/
`dup2` calls and of `execvp`. -/
def childExitCode (fs : FileSys) (pathVar : Option Str) (cmdName : Str)
    (redirOk execOk : Bool) : Option Nat :=
  if !redirOk then some 1
  else
    match findExecutable fs pathVar cmdName with
    | none => some 127
    | some _ => if execOk then none else some 1

/-! ## Pipeline wait loop (`PipelineManager::waitForPipeline`,
`src/executor/pipeline_manager.cpp`) -/

/-- Outcome of one `waitpid` call: the call itself failed, or the
child exited with a code (`WIFEXITED`/`WEXITSTATUS`), or it was
terminated by signal `n` (`WIFSIGNALED`/`WTERMSIG`). -/
inductive WaitRes
  | fail
  | exited (code : Nat)
  | signaled (sig : Nat)
  deriving DecidableEq, Repr

/-- The `for` loop of `waitForPipeline` over the pipeline's pids in
order: only the iteration with `i == pids.size() - 1` (the last stage)
assigns `exit_status`; earlier children are reaped and their statuses
discarded; a failed `waitpid` leaves `exit_status` unchanged. -/
def waitLoop : Int → List WaitRes → Int
  | es, [] => es
  | es, [r] =>
    match r with
    | WaitRes.exited c => (c : Int)
    | WaitRes.signaled n => 128 + (n : Int)
    | WaitRes.fail => es
  | es, _ :: rest@(_ :: _) => waitLoop es rest

/-- `PipelineManager::waitForPipeline`: `exit_status` starts at `-1`. -/
def waitForPipeline (rs : List WaitRes) : Int :=
  waitLoop (-1) rs

/-- The foreground wait in `Executor::executeSingleCommand`:
`WIFEXITED` gives the exit status, `WIFSIGNALED` gives `128 + N`, a
failed `waitpid` reports an error and returns `-1`. -/
def singleCommandStatus : WaitRes → Int
  | WaitRes.exited c => (c : Int)
  | WaitRes.signaled n => 128 + (n : Int)
  | WaitRes.fail => -1

/-! ## File-descriptor state in a pipeline child
(`PipelineManager::executePipeline` child branch,
`src/executor/pipeline_manager.cpp`, and
`FileDescriptorManager::setupRedirections`,
`src/executor/fd_manager.cpp`)

A descriptor table maps descriptor numbers to the open resource behind
them; `dup2` copies an entry, `close` erases one, and `open` installs a
resource at the descriptor number the kernel chose (passed in as a
parameter, constrained to be free). -/

/-- Resource behind an open descriptor. -/
inductive Res
  | stdIn
  | stdOut
  | stdErr
  | pipeR (j : Nat)
  | pipeW (j : Nat)
  | file (name : Str)
  deriving DecidableEq, Repr

/-- Descriptor table. -/
abbrev FdTable := Nat → Option Res

/-- Point update of a table. -/
def updateFd (t : FdTable) (k : Nat) (v : Option Res) : FdTable :=
  fun n => if n = k then v else t n

/-- `dup2(old, new)` on the success path: `new` refers to whatever
`old` refers to. -/
def dup2F (t : FdTable) (old new : Nat) : FdTable :=
  updateFd t new (t old)

/-- `close(k)`. -/
def closeF (t : FdTable) (k : Nat) : FdTable :=
  updateFd t k none

/-- `open` that the kernel answered with descriptor `f`. -/
def openAtF (t : FdTable) (f : Nat) (r : Res) : FdTable :=
  updateFd t f (some r)

/-- The child's `for (auto& pipe_fds : pipes) { close(first);
close(second); }` loop: close the read and write ends of pipes
`0 .. m-1`, where pipe `j` sits at descriptors `pr j` (read) and `pw j`
(write). -/
def closeAllPipes (pr pw : Nat → Nat) : FdTable → Nat → FdTable
  | t, 0 => t
  | t, m + 1 => closeF (closeF (closeAllPipes pr pw t m) (pr m)) (pw m)

/-- `FileDescriptorManager::setupInputRedirection` in the child, on the
success path: open the input file (kernel chose descriptor `fin`),
`dup2` it onto standard input, close the temporary descriptor.  No
input file: no effect. -/
def setupInputRedir (cmd : Command) (fin : Nat) (t : FdTable) : FdTable :=
  if cmd.input_file = [] then t
  else closeF (dup2F (openAtF t fin (Res.file cmd.input_file)) fin 0) fin

/-- `FileDescriptorManager::setupOutputRedirection` likewise onto
standard output.  (The open flags — truncate vs append — do not change
which resource the descriptor refers to and are not tracked here.) -/
def setupOutputRedir (cmd : Command) (fout : Nat) (t : FdTable) : FdTable :=
  if cmd.output_file = [] then t
  else closeF (dup2F (openAtF t fout (Res.file cmd.output_file)) fout 1) fout

/-- `FileDescriptorManager::setupErrorRedirection` likewise onto
standard error. -/
def setupErrorRedir (cmd : Command) (ferr : Nat) (t : FdTable) : FdTable :=
  if cmd.error_file = [] then t
  else closeF (dup2F (openAtF t ferr (Res.file cmd.error_file)) ferr 2) ferr

/-- Pipeline child, first phase (`executePipeline`, child branch):
wire stage `i`'s standard input to pipe `i-1`'s read end and its
standard output to pipe `i`'s write end, then close every inherited
pipe descriptor. -/
def childAfterPipes (n i : Nat) (pr pw : Nat → Nat) (t : FdTable) : FdTable :=
  let t1 := if 0 < i then dup2F t (pr (i - 1)) 0 else t
  let t2 := if i < n - 1 then dup2F t1 (pw i) 1 else t1
  closeAllPipes pr pw t2 (n - 1)

/-- Pipeline child after the input-redirection step of
`setupRedirections` (called from the executor lambda). -/
def childAfterInput (n i : Nat) (pr pw : Nat → Nat) (cmd : Command)
    (fin : Nat) (t : FdTable) : FdTable :=
  setupInputRedir cmd fin (childAfterPipes n i pr pw t)

/-- Pipeline child after the output-redirection step. -/
def childAfterOutput (n i : Nat) (pr pw : Nat → Nat) (cmd : Command)
    (fin fout : Nat) (t : FdTable) : FdTable :=
  setupOutputRedir cmd fout (childAfterInput n i pr pw cmd fin t)

/-- The complete descriptor state a pipeline child reaches just before
`exec`: pipe wiring, pipe closure, then the three redirection steps of
`setupRedirections` in source order. -/
def pipelineChildSetup (n i : Nat) (pr pw : Nat → Nat) (cmd : Command)
    (fin fout ferr : Nat) (t : FdTable) : FdTable :=
  setupErrorRedir cmd ferr (childAfterOutput n i pr pw cmd fin fout t)

/-- Read-end descriptors of a concrete 2-pipe layout (3-stage
pipeline): pipe `j` reads at `3 + 2j`. -/
def prDemo : Nat → Nat := fun j => 3 + 2 * j

/-- Write-end descriptors of the same layout: pipe `j` writes at
`4 + 2j`. -/
def pwDemo : Nat → Nat := fun j => 4 + 2 * j

/-- A concrete inherited descriptor table: the three standard streams
plus the four ends of two pipes. -/
def fdTableDemo : FdTable := fun fd =>
  if fd = 0 then some Res.stdIn
  else if fd = 1 then some Res.stdOut
  else if fd = 2 then some Res.stdErr
  else if fd = 3 then some (Res.pipeR 0)
  else if fd = 4 then some (Res.pipeW 0)
  else if fd = 5 then some (Res.pipeR 1)
  else if fd = 6 then some (Res.pipeW 1)
  else none

/-- A concrete middle stage with input, output and error redirections
all present. -/
def cmdDemo : Command :=
  { args := ["cat".toList]
    input_file := "in".toList
    output_file := "out".toList
    error_file := "err".toList }

/-! ## Built-in handlers (`builtin_handler.cpp`, unnamed part_002) -/

/-- The slice of `ShellState` (`include/shell/shell_state.h`) the
handlers under study read and write.  `env` is the process environment
(`getenv`/`setenv`). -/
structure BState where
  cwd : Str
  home : Str
  last_exit_status : Int
  running : Bool
  env : List (Str × Str)
  deriving DecidableEq, Repr

/-- `setenv(k, v, 1)`: overwrite the existing binding or append a new
one. -/
def setenvS : List (Str × Str) → Str → Str → List (Str × Str)
  | [], k, v => [(k, v)]
  | p :: rest, k, v =>
    if p.1 = k then (k, v) :: rest else p :: setenvS rest k v

/-- The pair of `setenv` calls a successful `cd` performs:
`setenv("OLDPWD", old_cwd, 1); setenv("PWD", new_dir, 1);`. -/
def cdEnv (env : List (Str × Str)) (old new : Str) : List (Str × Str) :=
  setenvS (setenvS env "OLDPWD".toList old) "PWD".toList new

/-- `std::stoi`: optional whitespace, optional sign, then at least one
digit (further characters are ignored); `none` models the
`std::invalid_argument` throw when no digit is found.  (Overflow is not
modelled.) -/
def stoiS (s : Str) : Option Int :=
  let s := s.dropWhile isCppSpace
  let (neg, s) :=
    match s with
    | '-' :: rest => (true, rest)
    | '+' :: rest => (false, rest)
    | _ => (false, s)
  let digits := s.takeWhile Char.isDigit
  if digits = [] then none
  else
    let v : Nat := digits.foldl (fun a c => a * 10 + (c.toNat - '0'.toNat)) 0
    some (if neg then -(v : Int) else (v : Int))

/-- Result of running one built-in handler: the new state, the
handler's boolean return value, and the lines it printed to standard
error. -/
structure BResult where
  state : BState
  handled : Bool
  errs : List String
  deriving DecidableEq, Repr

/-- `CdCommandHandler::handle` (unnamed part_002).  `chdir` succeeds on
exactly the directories satisfying `fs`; `getcwd` then reports the
directory changed to (directories are taken in canonical absolute
form).  `cd -` reads `OLDPWD` from the environment and errors without
any state change when it is unset; on a successful change, `cwd` is
updated and `OLDPWD`/`PWD` are set to the old and new directories. -/
def cdHandle (fs : Str → Bool) (args : List Str) (st : BState) : BResult :=
  let target : Option Str :=
    if args.length > 1 then
      let a := args.getD 1 []
      if a = ['-'] then getenvS st.env "OLDPWD".toList else some a
    else some st.home
  match target with
  | none => ⟨st, true, ["cd: OLDPWD not set"]⟩
  | some newDir =>
    let oldCwd := st.cwd
    if fs newDir then
      ⟨{ st with
          cwd := newDir
          env := cdEnv st.env oldCwd newDir },
        true, []⟩
    else
      ⟨st, true, ["cd: " ++ "No such file or directory" ++ ": " ++
                  String.mk newDir]⟩

/-- `ExitCommandHandler::handle` (unnamed part_002): sets
`last_exit_status` to `0` *before* looking at the argument; a
non-numeric argument prints a message and returns with the shell still
running (and the status already clobbered to `0`); otherwise `running`
is cleared and the handler returns `false`. -/
def exitHandle (args : List Str) (st : BState) : BResult :=
  let st1 := { st with last_exit_status := 0 }
  if args.length > 1 then
    match stoiS (args.getD 1 []) with
    | none => ⟨st1, true, ["exit: numeric argument required"]⟩
    | some n =>
      ⟨{ st1 with last_exit_status := n, running := false }, false, []⟩
  else
    ⟨{ st1 with running := false }, false, []⟩

/-- `FgCommandHandler::handle` with a missing job argument: message,
no state change, handler returns `true`.  (With a non-numeric argument
the source calls `std::stoi` outside any try-block, so the exception
escapes; that path is the `none` result.) -/
def fgHandleNoWait (args : List Str) (st : BState) : Option BResult :=
  if args.length < 2 then
    some ⟨st, true, ["fg: job specification missing"]⟩
  else
    match stoiS (args.getD 1 []) with
    | none => none
    | some _ => some ⟨st, true, []⟩

/-- `ExportCommandHandler::handle` (unnamed part_002): no argument
lists the environment; an argument without `=` prints a usage message
and changes nothing; `NAME=VALUE` updates the map and the process
environment. -/
def exportHandle (args : List Str) (st : BState) : BResult :=
  if args.length < 2 then ⟨st, true, []⟩
  else
    let a := args.getD 1 []
    if '=' ∈ a then
      let name := a.takeWhile (fun c => c ≠ '=')
      let value := (a.dropWhile (fun c => c ≠ '=')).drop 1
      ⟨{ st with env := setenvS st.env name value }, true, []⟩
    else
      ⟨st, true, ["export: invalid format. Use: export VAR=VALUE"]⟩

/-! ## Job manager (`JobManager`, unnamed part_003 and
`include/shell/job_manager.h`) -/

/-- `enum class JobStatus`, `include/types.h`. -/
inductive JobStatus
  | RUNNING
  | STOPPED
  | DONE
  | TERMINATED
  deriving DecidableEq, Repr

/-- `struct Job`, `include/types.h`. -/
structure Job where
  job_id : Nat
  pgid : Int
  command : Str
  status : JobStatus
  deriving DecidableEq, Repr

/-- The `JobManager` fields: the job map and the id counter
(`int next_job_id = 1;`). -/
structure JMState where
  jobs : List Job
  next_job_id : Nat
  deriving DecidableEq, Repr

/-- The initial manager: empty map, counter `1`. -/
def jmInit : JMState := ⟨[], 1⟩

/-- `JobManager::addJob`: the new job takes `next_job_id`, which is
post-incremented; the entry is inserted into the map. -/
def addJob (st : JMState) (pid : Int) (command : Str) : JMState :=
  ⟨st.jobs ++ [⟨st.next_job_id, pid, command, JobStatus.RUNNING⟩], st.next_job_id + 1⟩

/-- `JobManager::removeJob`: erase by id, counter untouched. -/
def removeJob (st : JMState) (job_id : Nat) : JMState :=
  ⟨st.jobs.filter (fun j => j.job_id ≠ job_id), st.next_job_id⟩

/-- Operations the shell performs on the job table. -/
inductive JMOp
  | add (pid : Int) (command : Str)
  | remove (job_id : Nat)
  deriving DecidableEq, Repr

/-- Run a sequence of operations. -/
def runJM (st : JMState) : List JMOp → JMState
  | [] => st
  | JMOp.add pid cmd :: ops => runJM (addJob st pid cmd) ops
  | JMOp.remove id :: ops => runJM (removeJob st id) ops

/-- The ids handed out by the `add` operations of a run, in order. -/
def assignedIds (st : JMState) : List JMOp → List Nat
  | [] => []
  | JMOp.add pid cmd :: ops => st.next_job_id :: assignedIds (addJob st pid cmd) ops
  | JMOp.remove id :: ops => assignedIds (removeJob st id) ops

/-! ## Further executor-side definitions used by the claims -/

/-- The names `Executor::executeSingleCommand` refuses to run because
"Built-in commands should be handled at shell level". -/
def builtinNames : List Str :=
  ["cd".toList, "jobs".toList, "fg".toList, "bg".toList,
   "pwd".toList, "export".toList, "exit".toList, "history".toList]

/-- The guards at the top of `Executor::executeSingleCommand` (unnamed
part_006), before any fork: an empty `argv` reports
`No command to execute` and returns `-1`; a built-in name reports an
error and returns `-1`; otherwise (`none`) execution proceeds to the
fork. -/
def executeSingleCommandGuard (cmd : Command) : Option Int :=
  if cmd.args = [] then some (-1)
  else if builtinNames.contains (cmd.args.getD 0 []) then some (-1)
  else none

/-- The expansion step of `Executor::executeCommandInChild` (unnamed
part_006): every element of `argv` is passed through
`EnvironmentVariableExpander::expand`, with no per-token quoting flag
anywhere in the pipeline (`struct Token` carries only kind and text). -/
def childArgs (env : List (Str × Str)) (cmd : Command) : List Str :=
  cmd.args.map (expand env)

/-- A file system holding exactly one entry: `./tool` is an existing
regular file whose owner execute bit is clear. -/
def fsNonExec : FileSys :=
  fun p => if p = "./tool".toList then some ⟨true, false⟩ else none

/-- A file system (for `chdir`) with exactly the directories `/a` and
`/b`. -/
def fsAB : Str → Bool :=
  fun d => d = "/a".toList || d = "/b".toList

/-! ## Theorems -/

/-- Reading back the variable just set. -/
theorem getenvS_setenvS_same (env : List (Str × Str)) (k v : Str) :
    getenvS (setenvS env k v) k = some v := by
  induction env with
  | nil => simp [getenvS, setenvS]
  | cons p rest ih =>
    by_cases hp : p.1 = k
    · simp [getenvS, setenvS, hp, List.find?]
    · simpa [getenvS, setenvS, hp, List.find?] using ih

/-- Setting one variable leaves the others unchanged. -/
theorem getenvS_setenvS_other (env : List (Str × Str)) (k k' v : Str)
    (h : k' ≠ k) : getenvS (setenvS env k v) k' = getenvS env k' := by
  have h2 : ¬(k = k') := fun hh => h hh.symm
  induction env with
  | nil => simp [getenvS, setenvS, List.find?, h2]
  | cons p rest ih =>
    by_cases hp : p.1 = k
    · simp [getenvS, setenvS, hp, List.find?, h2]
    · by_cases hp' : p.1 = k'
      · simp [getenvS, setenvS, hp, List.find?, hp', h]
      · simpa [getenvS, setenvS, hp, List.find?, hp', h] using ih

/-- What `cd`'s two `setenv` calls leave in `PWD` and `OLDPWD`. -/
theorem getenvS_cdEnv (env : List (Str × Str)) (old new : Str) :
    getenvS (cdEnv env old new) "PWD".toList = some new ∧
    getenvS (cdEnv env old new) "OLDPWD".toList = some old := by
  constructor
  · simp only [cdEnv]
    exact getenvS_setenvS_same _ _ _
  · simp only [cdEnv]
    rw [getenvS_setenvS_other _ _ _ _ (by decide)]
    exact getenvS_setenvS_same _ _ _

/-- `cd X` for a plain target that `chdir` accepts. -/
theorem cdHandle_plain (fs : Str → Bool) (st : BState) (X : Str)
    (hd : X ≠ ['-']) (hX : fs X = true) :
    cdHandle fs ["cd".toList, X] st =
      ⟨{ st with
          cwd := X
          env := cdEnv st.env st.cwd X }, true, []⟩ := by
  simp [cdHandle, hd, hX]

/-- `cd -` when `OLDPWD` is set to a directory that `chdir` accepts. -/
theorem cdHandle_dash (fs : Str → Bool) (st : BState) (old : Str)
    (hold : getenvS st.env "OLDPWD".toList = some old) (hfs : fs old = true) :
    cdHandle fs ["cd".toList, "-".toList] st =
      ⟨{ st with
          cwd := old
          env := cdEnv st.env st.cwd old }, true, []⟩ := by
  have hold2 : getenvS st.env ['O', 'L', 'D', 'P', 'W', 'D'] = some old := hold
  simp [cdHandle, hold2, hfs]

/-- The wait loop ignores every entry before the last. -/
theorem waitLoop_append_last (es : Int) (pre : List WaitRes) (r : WaitRes) :
    waitLoop es (pre ++ [r]) = waitLoop es [r] := by
  induction pre with
  | nil => rfl
  | cons x xs ih =>
    cases xs with
    | nil => simp [waitLoop]
    | cons y ys => simpa [waitLoop] using ih

/-- C1: the exit status the executor returns for a pipeline is the
exit status of the pipeline's last stage — the stage's exit code when
it exited, `128 + N` when it was terminated by signal `N` — whatever
the earlier stages' wait outcomes `pre` were (failures and kills
included); and the single-command foreground wait reports the same
mapping. -/
theorem pipeline_exit_status_is_last_stage (pre : List WaitRes) (c n : Nat) :
    waitForPipeline (pre ++ [WaitRes.exited c]) = (c : Int) ∧
    waitForPipeline (pre ++ [WaitRes.signaled n]) = 128 + (n : Int) ∧
    singleCommandStatus (WaitRes.exited c) = (c : Int) ∧
    singleCommandStatus (WaitRes.signaled n) = 128 + (n : Int) := by
  refine ⟨?_, ?_, rfl, rfl⟩ <;>
    simp [waitForPipeline, waitLoop_append_last, waitLoop]

/-- C3 (divergence): once the scanner sits on a `2>` that is not part
of `2>>`, `handleSpecialTokens` emits a `REDIRECT_ERR` token but
`getTokenLength` returns `0`, so the `while` loop of
`Tokenizer::tokenize` never advances: on the input `"2>"` the loop
runs out of any amount of fuel (the C++ loops forever, appending
`REDIRECT_ERR` tokens without bound, for any line containing `2>` not
followed by `>`, e.g. `ls 2> f`). -/
theorem tokenize_diverges_on_redirect_err (fuel : Nat) :
    ∀ acc, tokenizeGo ['2', '>'] fuel 0 TokenizerState.NORMAL [] acc = none := by
  induction fuel with
  | zero => intro acc; rfl
  | succ m ih =>
    intro acc
    have h : tokenizeGo ['2', '>'] (m + 1) 0 TokenizerState.NORMAL [] acc =
        tokenizeGo ['2', '>'] m 0 TokenizerState.NORMAL []
          (acc ++ [⟨TokenType.REDIRECT_ERR, ['2', '>']⟩]) := rfl
    rw [h]
    exact ih _

/-- C4 (divergence): on `cmd 2>> f` the tokenizer emits a
`REDIRECT_ERR` token (lexeme `2>`) spanning all three characters of
`2>>` — the `two == "2>>"` comparison in `handleSpecialTokens` is dead
because `two` has length two — so the parser records a *truncating*
stderr redirection (`error_append_mode = false`), where the repository's
own tests (`testErrorAppendRedirections`, `testRedirectionParsing`)
expect `REDIRECT_ERR_APPEND` and `error_append_mode = true`. -/
theorem tokenize_2gg_yields_redirect_err :
    tokenize 16 "cmd 2>> f".toList =
      some [⟨TokenType.WORD, "cmd".toList⟩,
            ⟨TokenType.REDIRECT_ERR, "2>".toList⟩,
            ⟨TokenType.WORD, "f".toList⟩,
            ⟨TokenType.END_OF_INPUT, []⟩] ∧
    (parse ((tokenize 16 "cmd 2>> f".toList).getD [])).1 =
      ⟨⟨[{ args := ["cmd".toList], error_file := "f".toList,
           error_append_mode := false }]⟩, false⟩ := by
  constructor <;> decide

/-- Lower bound on every id assigned after state `st`. -/
theorem assignedIds_lower (ops : List JMOp) :
    ∀ st : JMState, ∀ x ∈ assignedIds st ops, st.next_job_id ≤ x := by
  induction ops with
  | nil => intro st x hx; simp [assignedIds] at hx
  | cons op rest ih =>
    intro st x hx
    cases op with
    | add pid cmd =>
      simp only [assignedIds, List.mem_cons] at hx
      rcases hx with rfl | hx
      · exact Nat.le_refl _
      · exact Nat.le_of_succ_le (ih (addJob st pid cmd) x hx)
    | remove id =>
      simp only [assignedIds] at hx
      exact ih (removeJob st id) x hx

/-- C10: over any sequence of `addJob`/`removeJob` operations, the job
ids handed out by `addJob` are strictly increasing (so an id is never
reused, also after its job has been erased), `addJob` assigns exactly
the current `next_job_id` and bumps the counter, and `removeJob` never
decreases the counter. -/
theorem job_ids_strictly_increasing (st : JMState) (ops : List JMOp) :
    List.Chain' (· < ·) (assignedIds st ops) ∧
    (∀ pid cmd, (addJob st pid cmd).next_job_id = st.next_job_id + 1 ∧
      (addJob st pid cmd).jobs = st.jobs ++ [⟨st.next_job_id, pid, cmd, JobStatus.RUNNING⟩]) ∧
    (∀ id, (removeJob st id).next_job_id = st.next_job_id) ∧
    st.next_job_id ≤ (runJM st ops).next_job_id := by
  refine ⟨?_, fun pid cmd => ⟨rfl, rfl⟩, fun id => rfl, ?_⟩
  · induction ops generalizing st with
    | nil => exact List.chain'_nil
    | cons op rest ih =>
      cases op with
      | add pid cmd =>
        rw [assignedIds, List.chain'_cons']
        refine ⟨?_, ih (addJob st pid cmd)⟩
        intro y hy
        have := assignedIds_lower rest (addJob st pid cmd) y
          (List.mem_of_mem_head? hy)
        exact Nat.lt_of_lt_of_le (Nat.lt_succ_self _) this
      | remove id => exact ih (removeJob st id)
  · induction ops generalizing st with
    | nil => exact Nat.le_refl _
    | cons op rest ih =>
      cases op with
      | add pid cmd =>
        exact Nat.le_of_succ_le (ih (addJob st pid cmd))
      | remove id => exact ih (removeJob st id)

/-- Updated descriptor reads back the new value. -/
theorem updateFd_self (t : FdTable) (k : Nat) (v : Option Res) :
    updateFd t k v k = v := by
  simp [updateFd]

/-- Other descriptors are unchanged by an update. -/
theorem updateFd_neq (t : FdTable) (k : Nat) (v : Option Res) (n : Nat)
    (h : n ≠ k) : updateFd t k v n = t n := by
  simp [updateFd, h]

/-- A descriptor belonging to one of the first `m` pipes is closed by
the child's close-all loop. -/
theorem closeAllPipes_closed (pr pw : Nat → Nat) (t : FdTable) (m fd : Nat)
    (h : ∃ j, j < m ∧ (fd = pr j ∨ fd = pw j)) :
    closeAllPipes pr pw t m fd = none := by
  induction m with
  | zero =>
    obtain ⟨j, hj, _⟩ := h
    omega
  | succ m ih =>
    by_cases hpw : fd = pw m
    · simp [closeAllPipes, closeF, hpw, updateFd_self]
    · by_cases hpr : fd = pr m
      · subst hpr
        simp [closeAllPipes, closeF, updateFd_neq _ _ _ _ hpw, updateFd_self]
      · obtain ⟨j, hj, hor⟩ := h
        have hjm : j < m := by
          rcases hor with h1 | h1 <;>
            [skip; skip] <;>
          · rcases Nat.lt_succ_iff_lt_or_eq.mp hj with h2 | h2
            · exact h2
            · subst h2; simp_all
        simp [closeAllPipes, closeF, updateFd_neq _ _ _ _ hpw,
          updateFd_neq _ _ _ _ hpr, ih ⟨j, hjm, hor⟩]

/-- A descriptor belonging to none of the first `m` pipes is untouched
by the close-all loop. -/
theorem closeAllPipes_other (pr pw : Nat → Nat) (t : FdTable) (m fd : Nat)
    (h : ∀ j, j < m → fd ≠ pr j ∧ fd ≠ pw j) :
    closeAllPipes pr pw t m fd = t fd := by
  induction m with
  | zero => rfl
  | succ m ih =>
    have hm := h m (Nat.lt_succ_self m)
    simp [closeAllPipes, closeF, updateFd_neq _ _ _ _ hm.2,
      updateFd_neq _ _ _ _ hm.1,
      ih (fun j hj => h j (Nat.lt_succ_of_lt hj))]

/-- The value of one open-dup-close redirection step at its target. -/
theorem redirStep_target (u : FdTable) (f tgt : Nat) (name : Str)
    (htf : tgt ≠ f) :
    closeF (dup2F (openAtF u f (Res.file name)) f tgt) f tgt =
      some (Res.file name) := by
  simp [closeF, dup2F, openAtF, updateFd_neq _ _ _ _ htf, updateFd_self]

/-- One redirection step leaves descriptors other than its temporary
and its target alone. -/
theorem redirStep_other (u : FdTable) (f tgt : Nat) (name : Str) (fd : Nat)
    (hf : fd ≠ f) (ht : fd ≠ tgt) :
    closeF (dup2F (openAtF u f (Res.file name)) f tgt) f fd = u fd := by
  simp [closeF, dup2F, openAtF, updateFd_neq _ _ _ _ hf,
    updateFd_neq _ _ _ _ ht]

/-- A redirection step never introduces a non-file resource. -/
theorem redirStep_preserve (u : FdTable) (f tgt : Nat) (name : Str)
    (r : Res) (hr : ∀ nm, r ≠ Res.file nm) (hu : ∀ fd, u fd ≠ some r)
    (fd : Nat) :
    closeF (dup2F (openAtF u f (Res.file name)) f tgt) f fd ≠ some r := by
  by_cases hf : fd = f
  · simp [hf, closeF, updateFd_self]
  · by_cases ht : fd = tgt
    · rw [ht, redirStep_target u f tgt name]
      · intro hcon
        exact hr name (Option.some.injEq _ _ ▸ hcon ▸ rfl)
      · intro h2
        rw [h2] at ht
        rw [ht] at hf
        exact hf rfl
    · rw [redirStep_other u f tgt name fd hf ht]
      exact hu fd

/-- After the pipe wiring and the close-all loop, standard output of a
non-last stage refers to the write end of pipe `i`. -/
theorem childAfterPipes_at_one (n i : Nat) (pr pw : Nat → Nat) (t : FdTable)
    (hio : i < n - 1)
    (hpipes : ∀ j, j < n - 1 →
      t (pr j) = some (Res.pipeR j) ∧ t (pw j) = some (Res.pipeW j))
    (hgt : ∀ j, j < n - 1 → 2 < pr j ∧ 2 < pw j) :
    childAfterPipes n i pr pw t 1 = some (Res.pipeW i) := by
  have hone : ∀ j, j < n - 1 → (1 : Nat) ≠ pr j ∧ (1 : Nat) ≠ pw j := by
    intro j hj
    have := hgt j hj
    omega
  have hpw0 : pw i ≠ 0 := by
    have := (hgt i hio).2
    omega
  simp only [childAfterPipes, dup2F]
  rw [closeAllPipes_other pr pw _ _ _ hone, if_pos hio, updateFd_self]
  by_cases h0 : 0 < i
  · rw [if_pos h0, updateFd_neq _ _ _ _ hpw0]
    exact (hpipes i hio).2
  · rw [if_neg h0]
    exact (hpipes i hio).2

/-- After the pipe wiring and the close-all loop, standard input of a
non-first stage refers to the read end of pipe `i - 1`. -/
theorem childAfterPipes_at_zero (n i : Nat) (pr pw : Nat → Nat) (t : FdTable)
    (h0 : 0 < i) (hi : i < n)
    (hpipes : ∀ j, j < n - 1 →
      t (pr j) = some (Res.pipeR j) ∧ t (pw j) = some (Res.pipeW j))
    (hgt : ∀ j, j < n - 1 → 2 < pr j ∧ 2 < pw j) :
    childAfterPipes n i pr pw t 0 = some (Res.pipeR (i - 1)) := by
  have hi1 : i - 1 < n - 1 := by omega
  have hzero : ∀ j, j < n - 1 → (0 : Nat) ≠ pr j ∧ (0 : Nat) ≠ pw j := by
    intro j hj
    have := hgt j hj
    omega
  simp only [childAfterPipes, dup2F]
  rw [closeAllPipes_other pr pw _ _ _ hzero]
  by_cases hio : i < n - 1
  · rw [if_pos hio,
      updateFd_neq _ _ _ _ (by omega : (0 : Nat) ≠ 1), if_pos h0,
      updateFd_self]
    exact (hpipes (i - 1) hi1).1
  · rw [if_neg hio, if_pos h0, updateFd_self]
    exact (hpipes (i - 1) hi1).1

/-- Descriptors other than `0`, `1` and the pipe descriptors pass
through the pipe-wiring phase unchanged. -/
theorem childAfterPipes_untouched (n i : Nat) (pr pw : Nat → Nat)
    (t : FdTable) (fd : Nat)
    (hmem : ∀ k, k < n - 1 → fd ≠ pr k ∧ fd ≠ pw k)
    (h0 : fd ≠ 0) (h1 : fd ≠ 1) :
    childAfterPipes n i pr pw t fd = t fd := by
  simp only [childAfterPipes, dup2F]
  rw [closeAllPipes_other pr pw _ _ _ hmem]
  by_cases hio : i < n - 1
  · rw [if_pos hio, updateFd_neq _ _ _ _ h1]
    by_cases hz : 0 < i
    · rw [if_pos hz, updateFd_neq _ _ _ _ h0]
    · rw [if_neg hz]
  · rw [if_neg hio]
    by_cases hz : 0 < i
    · rw [if_pos hz, updateFd_neq _ _ _ _ h0]
    · rw [if_neg hz]

/-- After the pipe-wiring phase, the only descriptor that can still
refer to the write end of pipe `i` is standard output itself. -/
theorem childAfterPipes_pipeW_only_one (n i : Nat) (pr pw : Nat → Nat)
    (t : FdTable) (hio : i < n - 1) (hi : i < n)
    (hpipes : ∀ j, j < n - 1 →
      t (pr j) = some (Res.pipeR j) ∧ t (pw j) = some (Res.pipeW j))
    (hgt : ∀ j, j < n - 1 → 2 < pr j ∧ 2 < pw j)
    (hcan : ∀ fd j, j < n - 1 →
      (t fd = some (Res.pipeR j) → fd = pr j) ∧
      (t fd = some (Res.pipeW j) → fd = pw j))
    (fd : Nat) (hfd1 : fd ≠ 1) :
    childAfterPipes n i pr pw t fd ≠ some (Res.pipeW i) := by
  intro h
  by_cases hmem : ∃ k, k < n - 1 ∧ (fd = pr k ∨ fd = pw k)
  · rw [show childAfterPipes n i pr pw t fd =
        closeAllPipes pr pw _ (n - 1) fd from rfl,
      closeAllPipes_closed pr pw _ _ _ hmem] at h
    exact Option.noConfusion h
  · push_neg at hmem
    have hmem' : ∀ k, k < n - 1 → fd ≠ pr k ∧ fd ≠ pw k := by
      intro k hk
      have := hmem k hk
      tauto
    by_cases hfd0 : fd = 0
    · subst hfd0
      by_cases hz : 0 < i
      · rw [childAfterPipes_at_zero n i pr pw t hz hi hpipes hgt] at h
        exact Res.noConfusion (Option.some.inj h)
      · have hcap : childAfterPipes n i pr pw t 0 = t 0 := by
          simp only [childAfterPipes, dup2F]
          rw [closeAllPipes_other pr pw _ _ _ hmem', if_pos hio,
            updateFd_neq _ _ _ _ (by omega : (0 : Nat) ≠ 1), if_neg hz]
        rw [hcap] at h
        have h2 := (hcan 0 i hio).2 h
        have h3 := (hgt i hio).2
        omega
    · rw [childAfterPipes_untouched n i pr pw t fd hmem' hfd0 hfd1] at h
      have := (hcan fd i hio).2 h
      exact (hmem' i hio).2 this

/-- After the pipe-wiring phase, the only descriptor that can still
refer to the read end of pipe `i - 1` is standard input itself. -/
theorem childAfterPipes_pipeR_only_zero (n i : Nat) (pr pw : Nat → Nat)
    (t : FdTable) (h0i : 0 < i) (hi : i < n)
    (hpipes : ∀ j, j < n - 1 →
      t (pr j) = some (Res.pipeR j) ∧ t (pw j) = some (Res.pipeW j))
    (hgt : ∀ j, j < n - 1 → 2 < pr j ∧ 2 < pw j)
    (hcan : ∀ fd j, j < n - 1 →
      (t fd = some (Res.pipeR j) → fd = pr j) ∧
      (t fd = some (Res.pipeW j) → fd = pw j))
    (fd : Nat) (hfd0 : fd ≠ 0) :
    childAfterPipes n i pr pw t fd ≠ some (Res.pipeR (i - 1)) := by
  intro h
  have hi1 : i - 1 < n - 1 := by omega
  by_cases hmem : ∃ k, k < n - 1 ∧ (fd = pr k ∨ fd = pw k)
  · rw [show childAfterPipes n i pr pw t fd =
        closeAllPipes pr pw _ (n - 1) fd from rfl,
      closeAllPipes_closed pr pw _ _ _ hmem] at h
    exact Option.noConfusion h
  · push_neg at hmem
    have hmem' : ∀ k, k < n - 1 → fd ≠ pr k ∧ fd ≠ pw k := by
      intro k hk
      have := hmem k hk
      tauto
    by_cases hfd1 : fd = 1
    · subst hfd1
      by_cases hio : i < n - 1
      · rw [childAfterPipes_at_one n i pr pw t hio hpipes hgt] at h
        exact Res.noConfusion (Option.some.inj h)
      · have hcap : childAfterPipes n i pr pw t 1 = t 1 := by
          simp only [childAfterPipes, dup2F]
          rw [closeAllPipes_other pr pw _ _ _ hmem', if_neg hio, if_pos h0i,
            updateFd_neq _ _ _ _ (by omega : (1 : Nat) ≠ 0)]
        rw [hcap] at h
        have h2 := (hcan 1 (i - 1) hi1).1 h
        have h3 := (hgt (i - 1) hi1).1
        omega
    · rw [childAfterPipes_untouched n i pr pw t fd hmem' hfd0 hfd1] at h
      exact (hmem' (i - 1) hi1).1 ((hcan fd (i - 1) hi1).1 h)

/-- C2: for a pipeline stage that has both a pipe on a standard stream
and a file redirection for that same stream, the file wins — at exec
time descriptor `1` refers to the opened output file (resp. `0` to the
input file) — and no descriptor of the child still refers to the pipe
end that was attached to that stream: the inherited pipe descriptors
are closed by the close-all loop and the `dup2`ed copy on the standard
stream is overwritten by the redirection.  Hypotheses: stage `i` of
`n`, pipe `j` inherited at descriptors `pr j`/`pw j` (all above `2`,
and nowhere else in the table), and each `open` answered with a
descriptor that is free at that point (`fin`, `fout`, `ferr`). -/
theorem file_redirection_wins_over_pipe
    (n i : Nat) (pr pw : Nat → Nat) (cmd : Command) (fin fout ferr : Nat)
    (t : FdTable) (hi : i < n)
    (hpipes : ∀ j, j < n - 1 →
      t (pr j) = some (Res.pipeR j) ∧ t (pw j) = some (Res.pipeW j))
    (hgt : ∀ j, j < n - 1 → 2 < pr j ∧ 2 < pw j)
    (hcan : ∀ fd j, j < n - 1 →
      (t fd = some (Res.pipeR j) → fd = pr j) ∧
      (t fd = some (Res.pipeW j) → fd = pw j))
    (hfin : cmd.input_file ≠ [] → childAfterPipes n i pr pw t fin = none)
    (hfout : cmd.output_file ≠ [] →
      childAfterInput n i pr pw cmd fin t fout = none)
    (hferr : cmd.error_file ≠ [] →
      childAfterOutput n i pr pw cmd fin fout t ferr = none) :
    (i < n - 1 → cmd.output_file ≠ [] →
      pipelineChildSetup n i pr pw cmd fin fout ferr t 1 =
        some (Res.file cmd.output_file) ∧
      ∀ fd, pipelineChildSetup n i pr pw cmd fin fout ferr t fd ≠
        some (Res.pipeW i)) ∧
    (0 < i → cmd.input_file ≠ [] →
      pipelineChildSetup n i pr pw cmd fin fout ferr t 0 =
        some (Res.file cmd.input_file) ∧
      ∀ fd, pipelineChildSetup n i pr pw cmd fin fout ferr t fd ≠
        some (Res.pipeR (i - 1))) := by
  constructor
  · intro hio ho
    have w1 : childAfterPipes n i pr pw t 1 = some (Res.pipeW i) :=
      childAfterPipes_at_one n i pr pw t hio hpipes hgt
    have u1 : childAfterInput n i pr pw cmd fin t 1 = some (Res.pipeW i) := by
      by_cases hin : cmd.input_file = []
      · simp only [childAfterInput, setupInputRedir, if_pos hin]
        exact w1
      · have hfin' := hfin hin
        have hfin1 : (1 : Nat) ≠ fin := by
          intro hcon
          rw [hcon] at w1
          rw [hfin'] at w1
          exact Option.noConfusion w1
        simp only [childAfterInput, setupInputRedir, if_neg hin]
        rw [redirStep_other _ _ _ _ _ hfin1 (by omega)]
        exact w1
    have fout1 : fout ≠ 1 := by
      intro hcon
      have h2 := hfout ho
      rw [hcon] at h2
      rw [h2] at u1
      exact Option.noConfusion u1
    have v1 : childAfterOutput n i pr pw cmd fin fout t 1 =
        some (Res.file cmd.output_file) := by
      simp only [childAfterOutput, setupOutputRedir, if_neg ho]
      exact redirStep_target _ _ _ _ (Ne.symm fout1)
    have final1 : pipelineChildSetup n i pr pw cmd fin fout ferr t 1 =
        some (Res.file cmd.output_file) := by
      by_cases herr : cmd.error_file = []
      · simp only [pipelineChildSetup, setupErrorRedir, if_pos herr]
        exact v1
      · have hferr' := hferr herr
        have ferr1 : (1 : Nat) ≠ ferr := by
          intro hcon
          rw [hcon] at v1
          rw [hferr'] at v1
          exact Option.noConfusion v1
        simp only [pipelineChildSetup, setupErrorRedir, if_neg herr]
        rw [redirStep_other _ _ _ _ _ ferr1 (by omega)]
        exact v1
    have hU : ∀ fd, fd ≠ 1 →
        childAfterInput n i pr pw cmd fin t fd ≠ some (Res.pipeW i) := by
      intro fd hfd1
      by_cases hin : cmd.input_file = []
      · simp only [childAfterInput, setupInputRedir, if_pos hin]
        exact childAfterPipes_pipeW_only_one n i pr pw t hio hi hpipes hgt
          hcan fd hfd1
      · simp only [childAfterInput, setupInputRedir, if_neg hin]
        by_cases hffin : fd = fin
        · subst hffin
          rw [show closeF (dup2F (openAtF (childAfterPipes n i pr pw t) fd
              (Res.file cmd.input_file)) fd 0) fd fd = none from
            updateFd_self _ _ _]
          simp
        · by_cases hf0 : fd = 0
          · subst hf0
            rw [redirStep_target _ _ _ _ hffin]
            simp
          · rw [redirStep_other _ _ _ _ _ hffin hf0]
            exact childAfterPipes_pipeW_only_one n i pr pw t hio hi hpipes
              hgt hcan fd hfd1
    have hV : ∀ fd,
        childAfterOutput n i pr pw cmd fin fout t fd ≠
          some (Res.pipeW i) := by
      intro fd
      simp only [childAfterOutput, setupOutputRedir, if_neg ho]
      by_cases hffout : fd = fout
      · subst hffout
        rw [show closeF (dup2F (openAtF (childAfterInput n i pr pw cmd fin t)
            fd (Res.file cmd.output_file)) fd 1) fd fd = none from
          updateFd_self _ _ _]
        simp
      · by_cases hf1 : fd = 1
        · subst hf1
          rw [redirStep_target _ _ _ _ hffout]
          simp
        · rw [redirStep_other _ _ _ _ _ hffout hf1]
          exact hU fd hf1
    refine ⟨final1, ?_⟩
    intro fd
    by_cases herr : cmd.error_file = []
    · simp only [pipelineChildSetup, setupErrorRedir, if_pos herr]
      exact hV fd
    · simp only [pipelineChildSetup, setupErrorRedir, if_neg herr]
      exact redirStep_preserve _ _ _ _ _ (fun nm => by simp) hV fd
  · intro h0i hin
    have w0 : childAfterPipes n i pr pw t 0 = some (Res.pipeR (i - 1)) :=
      childAfterPipes_at_zero n i pr pw t h0i hi hpipes hgt
    have hfin' := hfin hin
    have fin0 : (0 : Nat) ≠ fin := by
      intro hcon
      rw [hcon] at w0
      rw [hfin'] at w0
      exact Option.noConfusion w0
    have u0 : childAfterInput n i pr pw cmd fin t 0 =
        some (Res.file cmd.input_file) := by
      simp only [childAfterInput, setupInputRedir, if_neg hin]
      exact redirStep_target _ _ _ _ fin0
    have v0 : childAfterOutput n i pr pw cmd fin fout t 0 =
        some (Res.file cmd.input_file) := by
      by_cases ho : cmd.output_file = []
      · simp only [childAfterOutput, setupOutputRedir, if_pos ho]
        exact u0
      · have hfout' := hfout ho
        have fout0 : (0 : Nat) ≠ fout := by
          intro hcon
          rw [hcon] at u0
          rw [hfout'] at u0
          exact Option.noConfusion u0
        simp only [childAfterOutput, setupOutputRedir, if_neg ho]
        rw [redirStep_other _ _ _ _ _ fout0 (by omega)]
        exact u0
    have final0 : pipelineChildSetup n i pr pw cmd fin fout ferr t 0 =
        some (Res.file cmd.input_file) := by
      by_cases herr : cmd.error_file = []
      · simp only [pipelineChildSetup, setupErrorRedir, if_pos herr]
        exact v0
      · have hferr' := hferr herr
        have ferr0 : (0 : Nat) ≠ ferr := by
          intro hcon
          rw [hcon] at v0
          rw [hferr'] at v0
          exact Option.noConfusion v0
        simp only [pipelineChildSetup, setupErrorRedir, if_neg herr]
        rw [redirStep_other _ _ _ _ _ ferr0 (by omega)]
        exact v0
    have hU2 : ∀ fd, childAfterInput n i pr pw cmd fin t fd ≠
        some (Res.pipeR (i - 1)) := by
      intro fd
      simp only [childAfterInput, setupInputRedir, if_neg hin]
      by_cases hffin : fd = fin
      · subst hffin
        rw [show closeF (dup2F (openAtF (childAfterPipes n i pr pw t) fd
            (Res.file cmd.input_file)) fd 0) fd fd = none from
          updateFd_self _ _ _]
        simp
      · by_cases hf0 : fd = 0
        · subst hf0
          rw [redirStep_target _ _ _ _ hffin]
          simp
        · rw [redirStep_other _ _ _ _ _ hffin hf0]
          exact childAfterPipes_pipeR_only_zero n i pr pw t h0i hi hpipes
            hgt hcan fd hf0
    have hV2 : ∀ fd, childAfterOutput n i pr pw cmd fin fout t fd ≠
        some (Res.pipeR (i - 1)) := by
      intro fd
      by_cases ho : cmd.output_file = []
      · simp only [childAfterOutput, setupOutputRedir, if_pos ho]
        exact hU2 fd
      · simp only [childAfterOutput, setupOutputRedir, if_neg ho]
        exact redirStep_preserve _ _ _ _ _ (fun nm => by simp) hU2 fd
    refine ⟨final0, ?_⟩
    intro fd
    by_cases herr : cmd.error_file = []
    · simp only [pipelineChildSetup, setupErrorRedir, if_pos herr]
      exact hV2 fd
    · simp only [pipelineChildSetup, setupErrorRedir, if_neg herr]
      exact redirStep_preserve _ _ _ _ _ (fun nm => by simp) hV2 fd

/-- Witness for `file_redirection_wins_over_pipe`: the middle stage of
a three-stage pipeline, with `in`, `out` and `err` redirections and
the kernel answering the three opens with descriptors 7, 8, 9. -/
theorem file_redirection_wins_over_pipe_witness :
    pipelineChildSetup 3 1 prDemo pwDemo cmdDemo 7 8 9 fdTableDemo 1 =
      some (Res.file "out".toList) ∧
    pipelineChildSetup 3 1 prDemo pwDemo cmdDemo 7 8 9 fdTableDemo 0 =
      some (Res.file "in".toList) := by
  have h := file_redirection_wins_over_pipe 3 1 prDemo pwDemo cmdDemo 7 8 9
    fdTableDemo (by decide) (by decide) (by decide)
    (by
      intro fd j hj
      interval_cases j <;>
        constructor <;>
          intro hfd <;>
            (simp only [fdTableDemo] at hfd
             split_ifs at hfd <;> simp_all [prDemo, pwDemo]))
    (by decide) (by decide) (by decide)
  exact ⟨(h.1 (by decide) (by decide)).1, (h.2 (by decide) (by decide)).1⟩

/-- C5 (counterexample): on the input `| cat` the parser raises no
diagnostic at all and returns a two-stage pipeline whose first stage
has an empty `argv` — a stage with zero WORD tokens is *not* a parse
error in this code. -/
theorem parse_accepts_zero_word_stage :
    (parse ((tokenize 16 "| cat".toList).getD [])).2 = [] ∧
    (parse ((tokenize 16 "| cat".toList).getD [])).1 =
      ⟨⟨[{ args := [] }, { args := ["cat".toList] }]⟩, false⟩ := by
  constructor <;> decide

/-- C5 (amended): a stage with zero WORD tokens is accepted by the
parser without any diagnostic, producing a stage with empty `argv`
that *is* handed on; the rejection happens only at execution time,
where `Executor::executeSingleCommand`'s argument guard reports
`No command to execute` and returns `-1` for an empty `argv`. -/
theorem zero_word_stage_rejected_at_execution_only :
    (parse ((tokenize 16 "| cat".toList).getD [])).2 = [] ∧
    ((parse ((tokenize 16 "| cat".toList).getD [])).1.pipeline.commands.getD 0
        {}).args = [] ∧
    (parse ((tokenize 16 "> f".toList).getD [])).2 = [] ∧
    ((parse ((tokenize 16 "> f".toList).getD [])).1.pipeline.commands.getD 0
        {}).args = [] ∧
    executeSingleCommandGuard { args := [] } = some (-1) := by
  refine ⟨by decide, by decide, by decide, by decide, by decide⟩

/-- C6 (counterexample): `./tool` exists, is a regular file and lacks
the owner execute bit, yet the child exits with `127` (the
`Command not found` path), not `126`: `ExecutableResolver` returns the
empty string both for a missing command and for a
found-but-not-executable one, and `executeCommandInChild` only ever
distinguishes empty from non-empty. -/
theorem non_executable_file_exits_127 :
    fsNonExec "./tool".toList = some ⟨true, false⟩ ∧
    childExitCode fsNonExec none "./tool".toList true true = some 127 ∧
    (127 : Nat) ≠ 126 := by
  refine ⟨by decide, by decide, by decide⟩

/-- C6 (amended): the child exits `1` when redirection setup fails,
`127` whenever the resolver returns nothing — including the case of an
existing regular file without execute permission, which is *not*
distinguished with `126` — and `1` when `execvp` itself fails. -/
theorem child_exit_codes (fs : FileSys) (pathVar : Option Str) (cmd : Str)
    (execOk : Bool) :
    (∀ r, childExitCode fs pathVar cmd false r = some 1) ∧
    (findExecutable fs pathVar cmd = none →
      childExitCode fs pathVar cmd true execOk = some 127) ∧
    (∀ p, findExecutable fs pathVar cmd = some p →
      childExitCode fs pathVar cmd true false = some 1) ∧
    ('/' ∈ cmd → fs cmd = some ⟨true, false⟩ →
      childExitCode fs pathVar cmd true true = some 127) := by
  refine ⟨fun r => rfl, fun h => ?_, fun p h => ?_, fun hs hf => ?_⟩
  · simp [childExitCode, h]
  · simp [childExitCode, h]
  · simp [childExitCode, findExecutable, hs, isExecutableF, hf]

/-- Witness for `child_exit_codes` at the concrete one-file system. -/
theorem child_exit_codes_witness :
    childExitCode fsNonExec none "./tool".toList true true = some 127 :=
  (child_exit_codes fsNonExec none "./tool".toList true).2.2.2
    (by decide) (by decide)

/-- C7 (counterexample): `exit abc` in a shell whose
`last_exit_status` is `5` prints the message and keeps running, but
leaves `last_exit_status = 0` — the handler clobbers it to `0` before
validating the argument — not `1` as claimed. -/
theorem exit_invalid_arg_sets_status_zero :
    exitHandle ["exit".toList, "abc".toList]
        ⟨"/".toList, "/h".toList, 5, true, []⟩ =
      ⟨⟨"/".toList, "/h".toList, 0, true, []⟩, true,
        ["exit: numeric argument required"]⟩ ∧
    (0 : Int) ≠ 1 := by
  refine ⟨by decide, by decide⟩

/-- C7 (amended): a built-in given an invalid argument prints a
message and the shell keeps running, but `last_exit_status` is *not*
set to `1`: a non-numeric `exit` argument leaves it `0` (clobbered
before validation), while a missing `fg` job id and a malformed
`export` leave the state entirely unchanged. -/
theorem builtin_invalid_arg_behaviour (st : BState) (a : Str)
    (ha : stoiS a = none) (he : '=' ∉ a) :
    exitHandle ["exit".toList, a] st =
      ⟨{ st with last_exit_status := 0 }, true,
        ["exit: numeric argument required"]⟩ ∧
    fgHandleNoWait ["fg".toList] st =
      some ⟨st, true, ["fg: job specification missing"]⟩ ∧
    exportHandle ["export".toList, a] st =
      ⟨st, true, ["export: invalid format. Use: export VAR=VALUE"]⟩ := by
  refine ⟨?_, rfl, ?_⟩
  · simp [exitHandle, ha]
  · simp [exportHandle, he]

/-- Witness for `builtin_invalid_arg_behaviour` at `exit abc` /
`export abc`. -/
theorem builtin_invalid_arg_behaviour_witness :
    exitHandle ["exit".toList, "abc".toList]
        ⟨"/".toList, "/h".toList, 7, true, []⟩ =
      ⟨⟨"/".toList, "/h".toList, 0, true, []⟩, true,
        ["exit: numeric argument required"]⟩ :=
  (builtin_invalid_arg_behaviour ⟨"/".toList, "/h".toList, 7, true, []⟩
    "abc".toList (by decide) (by decide)).1

/-- C8 (counterexample): the tokenizer strips the single quotes from
`echo '$X'` without recording any no-expansion flag, and the child
expands every `argv` element, so with `X=42` in the environment the
quoted argument reaches `exec` as `42`, not as the literal `$X`. -/
theorem single_quoted_dollar_is_expanded :
    ((parse ((tokenize 32 "echo '$X'".toList).getD [])).1.pipeline.commands.getD
        0 {}).args = ["echo".toList, "$X".toList] ∧
    childArgs [("X".toList, "42".toList)]
        ((parse ((tokenize 32 "echo '$X'".toList).getD [])).1.pipeline.commands.getD
          0 {}) = ["echo".toList, "42".toList] ∧
    "42".toList ≠ "$X".toList := by
  refine ⟨by decide, by decide, by decide⟩

/-- C8 (amended): expansion is applied to every argument regardless of
quoting — single-quoted, double-quoted and bare `$NAME` all reach
`exec` expanded (no token carries a quoting flag), and unknown names
expand to the empty string. -/
theorem expansion_ignores_quoting :
    childArgs [("X".toList, "42".toList)]
        ((parse ((tokenize 32 "echo '$X'".toList).getD [])).1.pipeline.commands.getD
          0 {}) = ["echo".toList, "42".toList] ∧
    childArgs [("X".toList, "42".toList)]
        ((parse ((tokenize 32 "echo \"$X\"".toList).getD [])).1.pipeline.commands.getD
          0 {}) = ["echo".toList, "42".toList] ∧
    childArgs [("X".toList, "42".toList)]
        ((parse ((tokenize 32 "echo $X".toList).getD [])).1.pipeline.commands.getD
          0 {}) = ["echo".toList, "42".toList] ∧
    childArgs [("X".toList, "42".toList)]
        ((parse ((tokenize 32 "echo '$Y'".toList).getD [])).1.pipeline.commands.getD
          0 {}) = ["echo".toList, []] := by
  refine ⟨by decide, by decide, by decide, by decide⟩

/-- C9 (counterexample): starting in `/a`, the sequence
`cd /b; cd -; cd -` (every change succeeding) leaves the shell in
`/b`, not in the original `/a`: the odd number of `OLDPWD` swaps ends
at the target, not at the origin. -/
theorem cd_dash_dash_lands_on_target :
    ((cdHandle fsAB ["cd".toList, "-".toList]
      ((cdHandle fsAB ["cd".toList, "-".toList]
        ((cdHandle fsAB ["cd".toList, "/b".toList]
          ⟨"/a".toList, "/h".toList, 0, true, []⟩).state)).state)).state).cwd =
      "/b".toList ∧
    "/b".toList ≠ "/a".toList := by
  refine ⟨by decide, by decide⟩

/-- C9 (amended): for every directory `X` that `cd` can enter,
`cd X; cd -` returns to the original directory, and a further `cd -`
lands back in `X` (so the three-step sequence ends in `X`, not the
original); on every successful change `PWD` is set to the new
directory and `OLDPWD` to the previous one. -/
theorem cd_dash_roundtrip (fs : Str → Bool) (st : BState) (X : Str)
    (hX : fs X = true) (h0 : fs st.cwd = true) (hd : X ≠ ['-']) :
    ((cdHandle fs ["cd".toList, X] st).state.cwd = X ∧
      getenvS (cdHandle fs ["cd".toList, X] st).state.env "PWD".toList =
        some X ∧
      getenvS (cdHandle fs ["cd".toList, X] st).state.env "OLDPWD".toList =
        some st.cwd) ∧
    (((cdHandle fs ["cd".toList, "-".toList]
        (cdHandle fs ["cd".toList, X] st).state).state.cwd = st.cwd ∧
      getenvS (cdHandle fs ["cd".toList, "-".toList]
        (cdHandle fs ["cd".toList, X] st).state).state.env "PWD".toList =
        some st.cwd ∧
      getenvS (cdHandle fs ["cd".toList, "-".toList]
        (cdHandle fs ["cd".toList, X] st).state).state.env "OLDPWD".toList =
        some X)) ∧
    ((cdHandle fs ["cd".toList, "-".toList]
      (cdHandle fs ["cd".toList, "-".toList]
        (cdHandle fs ["cd".toList, X] st).state).state).state.cwd = X ∧
      getenvS (cdHandle fs ["cd".toList, "-".toList]
        (cdHandle fs ["cd".toList, "-".toList]
          (cdHandle fs ["cd".toList, X] st).state).state).state.env
        "PWD".toList = some X ∧
      getenvS (cdHandle fs ["cd".toList, "-".toList]
        (cdHandle fs ["cd".toList, "-".toList]
          (cdHandle fs ["cd".toList, X] st).state).state).state.env
        "OLDPWD".toList = some st.cwd) := by
  have h1 : cdHandle fs ["cd".toList, X] st =
      ⟨{ st with
          cwd := X
          env := cdEnv st.env st.cwd X }, true, []⟩ :=
    cdHandle_plain fs st X hd hX
  rw [h1]
  have e1pwd := (getenvS_cdEnv st.env st.cwd X).1
  have e1old := (getenvS_cdEnv st.env st.cwd X).2
  have h2 : cdHandle fs ["cd".toList, "-".toList]
      ({ st with
          cwd := X
          env := cdEnv st.env st.cwd X } : BState) =
      ⟨{ st with
          cwd := st.cwd
          env := cdEnv (cdEnv st.env st.cwd X) X st.cwd }, true, []⟩ := by
    have := cdHandle_dash fs
      ({ st with
          cwd := X
          env := cdEnv st.env st.cwd X } : BState) st.cwd e1old h0
    simpa using this
  rw [show ((⟨{ st with
      cwd := X
      env := cdEnv st.env st.cwd X }, true, []⟩ : BResult).state) =
    ({ st with
      cwd := X
      env := cdEnv st.env st.cwd X } : BState) from rfl, h2]
  have e2pwd := (getenvS_cdEnv (cdEnv st.env st.cwd X) X st.cwd).1
  have e2old := (getenvS_cdEnv (cdEnv st.env st.cwd X) X st.cwd).2
  have h3 : cdHandle fs ["cd".toList, "-".toList]
      ({ st with
          cwd := st.cwd
          env := cdEnv (cdEnv st.env st.cwd X) X st.cwd } : BState) =
      ⟨{ st with
          cwd := X
          env := cdEnv (cdEnv (cdEnv st.env st.cwd X) X st.cwd) st.cwd X },
        true, []⟩ := by
    have := cdHandle_dash fs
      ({ st with
          cwd := st.cwd
          env := cdEnv (cdEnv st.env st.cwd X) X st.cwd } : BState) X e2old hX
    simpa using this
  rw [show ((⟨{ st with
      cwd := st.cwd
      env := cdEnv (cdEnv st.env st.cwd X) X st.cwd }, true, []⟩ :
        BResult).state) =
    ({ st with
      cwd := st.cwd
      env := cdEnv (cdEnv st.env st.cwd X) X st.cwd } : BState) from rfl, h3]
  have e3pwd :=
    (getenvS_cdEnv (cdEnv (cdEnv st.env st.cwd X) X st.cwd) st.cwd X).1
  have e3old :=
    (getenvS_cdEnv (cdEnv (cdEnv st.env st.cwd X) X st.cwd) st.cwd X).2
  exact ⟨⟨rfl, e1pwd, e1old⟩, ⟨rfl, e2pwd, e2old⟩, ⟨rfl, e3pwd, e3old⟩⟩

/-- Witness for `cd_dash_roundtrip`: starting at `/a`, `cd /b; cd -`
returns to `/a`. -/
theorem cd_dash_roundtrip_witness :
    (cdHandle fsAB ["cd".toList, "-".toList]
      (cdHandle fsAB ["cd".toList, "/b".toList]
        ⟨"/a".toList, "/h".toList, 0, true, []⟩).state).state.cwd =
      "/a".toList :=
  (cd_dash_roundtrip fsAB ⟨"/a".toList, "/h".toList, 0, true, []⟩
    "/b".toList (by decide) (by decide) (by decide)).2.1.1

end Helix
